import Mathlib

/-!
Verification development for the doc-scraper crawler
(`src/crawler.ts`, `src/types.ts`, `src/utils/index.ts`).

The TypeScript source is shallowly embedded below.  DOM querying,
URL parsing/resolution, regular-expression engines, the HTTP fetcher
and the file system are external collaborators; they enter the
embedding as abstract function parameters.  Everything the crawler
itself computes (control flow, string cleanup, state updates) is
translated directly from the source.
-/

set_option maxHeartbeats 1000000

/- ### JavaScript string primitives used by the crawler -/

/-- characters removed by `String.prototype.trim` (modelled with Lean's
whitespace class, which covers the ASCII whitespace the crawler meets) -/
def trimChars (l : List Char) : List Char :=
  ((l.dropWhile Char.isWhitespace).reverse.dropWhile Char.isWhitespace).reverse

/-- JS `s.trim()` -/
def jsTrim (s : String) : String :=
  String.mk (trimChars s.toList)

/-- helper for JS `s.split('.')`: split a character list on a separator,
keeping empty segments exactly as `String.prototype.split` does -/
def splitOnCharList (sep : Char) : List Char → List (List Char)
  | [] => [[]]
  | c :: cs =>
    let r := splitOnCharList sep cs
    if c = sep then [] :: r
    else
      match r with
      | [] => [[c]]
      | h :: t => (c :: h) :: t

/-- JS `s.split('.')` -/
def jsSplitDot (s : String) : List String :=
  (splitOnCharList '.' s.toList).map String.mk

/-- JS `parts.join('.')` -/
def joinDots : List String → String
  | [] => ""
  | [s] => s
  | s :: rest => s ++ "." ++ joinDots rest

/-- JS `s.startsWith('*')` -/
def jsStartsWithStar (s : String) : Bool :=
  match s.toList with
  | c :: _ => c = '*'
  | [] => false

/-- JS `s.replace(/^\*+/, '')` -/
def dropLeadingStars (s : String) : String :=
  String.mk (s.toList.dropWhile (fun c => c = '*'))

/-- JS `s.replace(/[=?].*$/, '')`: erase from the leftmost `=` or `?`
whose remaining suffix contains no line terminator (`.` does not match
newlines and `$` anchors at the end of the input) -/
def stripMarkerSuffixList : List Char → List Char
  | [] => []
  | c :: cs =>
    if (c = '=' ∨ c = '?') ∧ ¬ cs.any (fun d => d = '\n' ∨ d = '\r') then []
    else c :: stripMarkerSuffixList cs

/-- JS `s.replace(/[=?].*$/, '')` on strings -/
def stripMarkerSuffix (s : String) : String :=
  String.mk (stripMarkerSuffixList s.toList)

/-- helper for JS `s.split(/\s+/)`: split on maximal whitespace runs,
with the leading/trailing empty tokens `String.prototype.split` produces -/
def splitWsRuns : List Char → List (List Char)
  | [] => [[]]
  | c :: rest =>
    let r := splitWsRuns rest
    if c.isWhitespace then
      match rest with
      | d :: _ => if d.isWhitespace then r else [] :: r
      | [] => [] :: r
    else
      match r with
      | h :: t => (c :: h) :: t
      | [] => [[c]]

/-- JS `s.split(/\s+/)` -/
def jsSplitWs (s : String) : List String :=
  (splitWsRuns s.toList).map String.mk

/-- JS truthiness test `match?.[1]` on an abstract capture-group result:
a missing match and an empty capture are both falsy -/
def truthyGroup (o : Option String) : Option String :=
  match o with
  | some s => if s = "" then none else some s
  | none => none

/- ### Abstract DOM interface (cheerio, external collaborator) -/

/-- the slice of the cheerio API that the crawler uses: scoped selector
queries, text content and attribute access -/
structure Dom (E : Type) where
  find : E → String → List E
  text : E → String
  attr : E → String → Option String

/-- cheerio `.text()` on a multi-element selection concatenates the
texts of all matched elements in order -/
def selText {E : Type} (d : Dom E) (els : List E) : String :=
  (els.map d.text).foldl (fun a b => a ++ b) ""

/- ### Data model (`src/types.ts`) -/

/-- `EntryType` from types.ts -/
inductive EntryType where
  | «class»
  | method
  | function
  | module
  | property
  | interface
deriving DecidableEq

/-- `Parameter` from types.ts (fields the crawler always assigns are
non-optional here) -/
structure Parameter where
  name : String
  type : Option String
  description : String
  optional : Bool
  default : Option String
  isRest : Bool
deriving DecidableEq

/-- `ReturnType` from types.ts -/
structure ReturnType where
  type : Option String
  description : Option String
deriving DecidableEq

/-- `Example` from types.ts -/
structure Example where
  code : String
  description : Option String
  language : String
deriving DecidableEq

/-- `Method` from types.ts -/
structure Method where
  name : String
  description : List String
  signature : Option String
  parameters : Option (List Parameter)
  returns : Option ReturnType
  examples : Option (List Example)
  isStatic : Option Bool
  isPrivate : Option Bool
  decorators : Option (List String)
deriving DecidableEq

/-- `Property` from types.ts -/
structure Property where
  name : String
  description : List String
  type : Option String
  defaultValue : Option String
  isStatic : Option Bool
  isPrivate : Option Bool
  decorators : Option (List String)
deriving DecidableEq

/-- the `source` provenance sub-object of `DocEntry` -/
structure SourceRef where
  name : String
  url : String
  normalizedUrl : String
  version : Option String
deriving DecidableEq

/-- `DocEntry` from types.ts.  `title` is declared `string` in the
TypeScript interface but the crawler stores `extractText(...)[0]`,
which is `undefined` when nothing matched, so it is an `Option` here.
The never-written optional TS fields (the syntax/seeAlso lists) are
omitted: no code in the crawler assigns them. -/
structure DocEntry where
  id : String
  type : EntryType
  «namespace» : List String
  name : String
  title : Option String
  description : List String
  signature : Option String
  source : SourceRef
  parameters : Option (List Parameter)
  returns : Option ReturnType
  examples : List Example
  parent : Option String
  children : Option (List String)
  scrapedAt : String
  methods : Option (List Method)
  properties : Option (List Property)
deriving DecidableEq

/- ### Configuration model (`DocSource` from types.ts) -/

/-- the `patterns` bundle: each compiled `RegExp` is abstracted as the
function the crawler extracts from it (`.test`, or `match` group 1;
a group-1 result of `some ""` models an empty capture) -/
structure Patterns where
  isClass : String → Bool
  isMethod : String → Bool
  isFunction : String → Bool
  isModule : String → Bool
  isProperty : String → Bool
  nameExtract : String → Option String
  idExtract : Option (String → Option String)
  signatureClean : Option (String → Option String)

/-- `ParameterConfig` from types.ts -/
structure ParameterConfig where
  selector : String
  nameSelector : Option String
  typeSelector : Option String
  descriptionSelector : Option String
  defaultSelector : Option String
  optionalPattern : Option (String → Bool)
  namePattern : Option (String → Option String)
  typePattern : Option (String → Option String)
  defaultPattern : Option (String → Option String)
  restPattern : Option (String → Bool)

/-- a `parameters` entry: bare selector or rich descriptor -/
inductive ParamSel where
  | str (s : String)
  | cfg (c : ParameterConfig)

/-- `ExampleConfig` from types.ts -/
structure ExampleConfig where
  selector : String
  language : Option String
  languageAttr : Option String
  languageClass : Option (String → Option String)

/-- an `examples` entry: bare selector or rich descriptor -/
inductive ExampleSel where
  | str (s : String)
  | cfg (c : ExampleConfig)

/-- the `methods` selector group -/
structure MethodsSel where
  container : String
  name : String
  description : List String
  signature : Option String
  isStatic : Option String
  isPrivate : Option String
  decorators : Option String

/-- the `properties` selector group -/
structure PropertiesSel where
  container : String
  name : String
  description : Option (List String)
  type : Option String
  defaultValue : Option String
  isStatic : Option String
  isPrivate : Option String
  decorators : Option String

/-- the `selectors` bundle of `DocSource` -/
structure Selectors where
  navigationLinks : String
  subNavigationLinks : Option String
  contentLinks : String
  title : String
  name : String
  id : Option String
  description : List String
  examples : List ExampleSel
  parameters : Option (List ParamSel)
  returns : Option String
  type : Option String
  «namespace» : Option String
  signature : Option String
  methods : Option MethodsSel
  properties : Option PropertiesSel

/-- `DocSource` from types.ts -/
structure DocSource where
  name : String
  baseUrl : String
  version : Option String
  indexUrl : String
  selectors : Selectors
  patterns : Patterns
  defaultLanguage : String

/-- ambient context for the extraction engine: the DOM handle plus the
external URL resolver (`new URL(href, base).toString()`), the crawler's
own `normalizeUrl` (modelled separately for the URL claims) and the
clock value `new Date().toISOString()` -/
structure Env (E : Type) where
  dom : Dom E
  resolve : String → String → String
  normalize : String → String
  scrapedAt : String

/- ### Extraction engine (`DocCrawler`, crawler.ts) -/

/-- `DocCrawler.determineType`: test the element's full text against
the five classification patterns in fixed priority order -/
def determineType {E : Type} (d : Dom E) (p : Patterns) (el : E) : Option EntryType :=
  let text := d.text el
  if p.isClass text then some EntryType.«class»
  else if p.isMethod text then some EntryType.method
  else if p.isFunction text then some EntryType.function
  else if p.isModule text then some EntryType.module
  else if p.isProperty text then some EntryType.property
  else none

/-- the `string | string[]` selector argument of `extractText` -/
inductive SelArg where
  | one (s : String)
  | many (l : List String)

/-- `DocCrawler.extractText`: for each selector in order, collect the
trimmed non-empty texts of all its matches, concatenated across
selectors -/
def extractText {E : Type} (d : Dom E) (selector : SelArg) (context : E) : List String :=
  let selectors := match selector with
    | SelArg.one s => [s]
    | SelArg.many l => l
  selectors.flatMap fun sel =>
    (((d.find context sel).map (fun el => jsTrim (d.text el))).filter (fun s => s ≠ ""))

/-- `DocCrawler.extractNamespace` (page-level queries run from the
document root element) -/
def extractNamespace {E : Type} (d : Dom E) (src : DocSource) (root : E) : List String :=
  match src.selectors.«namespace» with
  | none => []
  | some nsSel =>
    ((d.find root nsSel).map (fun el => jsTrim (d.text el))).filter (fun s => s ≠ "")

/-- the inner loop of the `languageClass` resolution in
`DocCrawler.extractExamples`: first class whose capture group 1 is
truthy wins -/
def firstClassCapture (pat : String → Option String) : List String → String → String
  | [], lang => lang
  | cls :: rest, lang =>
    match pat cls with
    | some g => if g ≠ "" then g else firstClassCapture pat rest lang
    | none => firstClassCapture pat rest lang

/-- `DocCrawler.extractExamples` -/
def extractExamples {E : Type} (d : Dom E) (src : DocSource) (context : E) : List Example :=
  src.selectors.examples.flatMap fun s =>
    match s with
    | ExampleSel.str sel =>
      (d.find context sel).map fun el =>
        { code := jsTrim (d.text el)
          description := none
          language := src.defaultLanguage }
    | ExampleSel.cfg c =>
      (d.find context c.selector).map fun el =>
        let lang0 := match c.language with
          | some l => if l = "" then src.defaultLanguage else l
          | none => src.defaultLanguage
        let lang1 := match c.languageAttr with
          | some a =>
            match d.attr el a with
            | some v => if v = "" then lang0 else v
            | none => lang0
          | none => lang0
        let lang2 := match c.languageClass with
          | some pat =>
            let classes := match d.attr el ("class") with
              | some cl => jsSplitWs cl
              | none => []
            firstClassCapture pat classes lang1
          | none => lang1
        { code := jsTrim (d.text el)
          description := none
          language := lang2 }

/-- the rich-descriptor branch of `DocCrawler.extractParameters`, for
one matched parameter element; `none` means the element is skipped -/
def extractRichParam {E : Type} (d : Dom E) (pc : ParameterConfig) (el : E) : Option Parameter :=
  let name0 := match pc.nameSelector with
    | some ns => jsTrim (selText d (d.find el ns))
    | none => jsTrim (d.text el)
  let nameOpt := match pc.namePattern with
    | some pat => truthyGroup (pat name0)
    | none => some name0
  match nameOpt with
  | none => none
  | some name =>
    let isRest := match pc.restPattern with
      | some t => t name
      | none => jsStartsWithStar name
    let type0 : Option String := match pc.typeSelector with
      | some ts =>
        let t := jsTrim (selText d (d.find el ts))
        if t = "" then none else some t
      | none => none
    let type1 : Option String := match type0, pc.typePattern with
      | some t, some pat =>
        some (match truthyGroup (pat t) with
          | some g => g
          | none => t)
      | t, _ => t
    let default0 : Option String := match pc.defaultSelector with
      | some ds =>
        let t := jsTrim (selText d (d.find el ds))
        if t = "" then none else some t
      | none => none
    let default1 : Option String := match default0, pc.defaultPattern with
      | some v, some pat =>
        some (match truthyGroup (pat v) with
          | some g => g
          | none => v)
      | v, _ => v
    let description := match pc.descriptionSelector with
      | some ds => jsTrim (selText d (d.find el ds))
      | none => ""
    let optional := default1.isSome || (match pc.optionalPattern with
      | some t => t name
      | none => false)
    let name1 := jsTrim (stripMarkerSuffix name)
    let name2 := if isRest then dropLeadingStars name1 else name1
    if name2 = "" then none
    else some
      { name := name2
        type := type1
        description := description
        optional := optional
        default := default1
        isRest := isRest }

/-- the bare-string branch of `DocCrawler.extractParameters` for one
matched element -/
def extractSimpleParam {E : Type} (d : Dom E) (el : E) : Option Parameter :=
  let name := jsTrim (d.text el)
  if name = "" then none
  else some
    { name := name
      type := none
      description := ""
      optional := false
      default := none
      isRest := jsStartsWithStar name }

/-- the per-descriptor loop body of `DocCrawler.extractParameters`,
run against the chosen signature element -/
def extractParametersFromSig {E : Type} (d : Dom E) (ps : List ParamSel) (firstSig : E) : List Parameter :=
  ps.flatMap fun pc =>
    match pc with
    | ParamSel.str sel => (d.find firstSig sel).filterMap (extractSimpleParam d)
    | ParamSel.cfg c => (d.find firstSig c.selector).filterMap (extractRichParam d c)

/-- `DocCrawler.extractParameters`: scope to the first element matched
by the hardcoded selector `dt.sig` inside the entry's context; no such
element means no parameters -/
def extractParameters {E : Type} (d : Dom E) (src : DocSource) (context : E) : List Parameter :=
  match src.selectors.parameters with
  | none => []
  | some ps =>
    match (d.find context ("dt.sig")).head? with
    | none => []
    | some firstSig =>
      ps.flatMap fun pc =>
        match pc with
        | ParamSel.str sel => (d.find firstSig sel).filterMap (extractSimpleParam d)
        | ParamSel.cfg c => (d.find firstSig c.selector).filterMap (extractRichParam d c)

/-- `DocCrawler.extractReturns` -/
def extractReturns {E : Type} (d : Dom E) (src : DocSource) (context : E) : Option ReturnType :=
  match src.selectors.returns with
  | none => none
  | some rSel =>
    let t := jsTrim (match (d.find context rSel).head? with
      | some e => d.text e
      | none => "")
    if t = "" then none
    else some { type := some t, description := none }

/-- `DocCrawler.extractMethods` -/
def extractMethods {E : Type} (d : Dom E) (src : DocSource) (context : E) : List Method :=
  match src.selectors.methods with
  | none => []
  | some sel =>
    (d.find context sel.container).filterMap fun mEl =>
      let name := jsTrim (selText d (d.find mEl sel.name))
      if name = "" then none
      else
        let m0 : Method :=
          { name := name
            description := extractText d (SelArg.many sel.description) mEl
            signature := sel.signature.map (fun s => jsTrim (selText d (d.find mEl s)))
            parameters := none
            returns := none
            examples := none
            isStatic := sel.isStatic.map (fun s => (d.find mEl s).length > 0)
            isPrivate := sel.isPrivate.map (fun s => (d.find mEl s).length > 0)
            decorators := sel.decorators.map (fun s =>
              ((d.find mEl s).map (fun e => jsTrim (d.text e))).filter (fun t => t ≠ "")) }
        let m1 := match src.selectors.parameters with
          | some _ =>
            let ps := extractParameters d src mEl
            if ps.length > 0 then { m0 with parameters := some ps } else m0
          | none => m0
        let m2 := match src.selectors.returns with
          | some _ =>
            match extractReturns d src mEl with
            | some r => { m1 with returns := some r }
            | none => m1
          | none => m1
        some m2

/-- `DocCrawler.extractProperties` -/
def extractProperties {E : Type} (d : Dom E) (src : DocSource) (context : E) : List Property :=
  match src.selectors.properties with
  | none => []
  | some sel =>
    (d.find context sel.container).filterMap fun pEl =>
      let name := jsTrim (selText d (d.find pEl sel.name))
      if name = "" then none
      else some
        { name := name
          description := match sel.description with
            | some ds => extractText d (SelArg.many ds) pEl
            | none => []
          type := sel.type.map (fun s => jsTrim (selText d (d.find pEl s)))
          defaultValue := sel.defaultValue.map (fun s => jsTrim (selText d (d.find pEl s)))
          isStatic := sel.isStatic.map (fun s => (d.find pEl s).length > 0)
          isPrivate := sel.isPrivate.map (fun s => (d.find pEl s).length > 0)
          decorators := sel.decorators.map (fun s =>
            ((d.find pEl s).map (fun e => jsTrim (d.text e))).filter (fun t => t ≠ "")) }

/-- the `nameText` local of `extractEntry`: the first name-selected
sub-element's trimmed text, else the whole element's -/
def entryNameText {E : Type} (env : Env E) (src : DocSource) (el : E) : String :=
  match (env.dom.find el src.selectors.name).head? with
  | some ne => jsTrim (env.dom.text ne)
  | none => jsTrim (env.dom.text el)

/-- the `id` local of `extractEntry` -/
def entryId {E : Type} (env : Env E) (src : DocSource) (el : E) (ns : List String)
    (name : String) : String :=
  match src.selectors.id with
  | some idSel =>
    let idText := match (env.dom.find el idSel).head? with
      | some ie => jsTrim (env.dom.text ie)
      | none => ""
    match src.patterns.idExtract with
    | some pat => (pat idText).getD (joinDots (ns ++ [name]))
    | none => idText
  | none => joinDots (ns ++ [name])

/-- the `fullUrl` local of `extractEntry` -/
def entryFullUrl {E : Type} (env : Env E) (el : E) (url : String) : String :=
  match env.dom.attr el ("href") with
  | some h => if h = "" then url else env.resolve h url
  | none => url

/-- the `signature` local of `extractEntry` -/
def entrySignature {E : Type} (env : Env E) (src : DocSource) (el : E) : Option String :=
  match src.selectors.signature with
  | none => none
  | some sigSel =>
    match (env.dom.find el sigSel).head? with
    | none => none
    | some _ =>
      let s := jsTrim (selText env.dom (env.dom.find el sigSel))
      some (match src.patterns.signatureClean with
        | some pat =>
          match truthyGroup (pat s) with
          | some c => c
          | none => s
        | none => s)

/-- `DocCrawler.extractEntry`: one content-link element to at most one
entry; `none` is the silent per-entry skip.  The source's local `let`
bindings are the helper definitions above. -/
def extractEntry {E : Type} (env : Env E) (src : DocSource) (el : E) (url : String)
    (ns : List String) : Option DocEntry :=
  match determineType env.dom src.patterns el with
  | none => none
  | some type =>
    match truthyGroup (src.patterns.nameExtract (entryNameText env src el)) with
    | none => none
    | some name =>
      let entry0 : DocEntry :=
        { id := entryId env src el ns name
          type := type
          «namespace» := ns
          name := name
          title := (extractText env.dom (SelArg.one src.selectors.title) el).head?
          description := extractText env.dom (SelArg.many src.selectors.description) el
          signature := entrySignature env src el
          source :=
            { name := src.name
              url := entryFullUrl env el url
              normalizedUrl := env.normalize (entryFullUrl env el url)
              version := src.version }
          parameters := none
          returns := none
          examples := extractExamples env.dom src el
          parent := none
          children := none
          scrapedAt := env.scrapedAt
          methods := none
          properties := none }
      let entry1 :=
        if type = EntryType.«class» then
          let methods := extractMethods env.dom src el
          let e1 := if methods.length > 0 then { entry0 with methods := some methods } else entry0
          let properties := extractProperties env.dom src el
          if properties.length > 0 then { e1 with properties := some properties } else e1
        else entry0
      let entry2 := match src.selectors.parameters with
        | some _ =>
          let ps := extractParameters env.dom src el
          if ps.length > 0 then { entry1 with parameters := some ps } else entry1
        | none => entry1
      let entry3 := match src.selectors.returns with
        | some _ =>
          match extractReturns env.dom src el with
          | some r => { entry2 with returns := some r }
          | none => entry2
        | none => entry2
      some entry3

/-- `DocCrawler.extractEntries`: every content-link element under the
page body, skipped elements contributing nothing -/
def extractEntries {E : Type} (env : Env E) (src : DocSource) (root : E) (url : String) : List DocEntry :=
  let ns := extractNamespace env.dom src root
  (env.dom.find root src.selectors.contentLinks).filterMap fun el =>
    extractEntry env src el url ns

/- ### Frontier and crawl controller (`DocCrawler`, crawler.ts) -/

/-- the mutable crawl state: `visited` (a Set of URLs, kept duplicate
free), `queue` (FIFO), `entries` (append-only accumulator) -/
structure CrawlState where
  visited : List String
  queue : List String
  entries : List DocEntry
deriving DecidableEq

/-- JS `Set.prototype.add` on the visited set -/
def insertVisited (v : List String) (url : String) : List String :=
  if v.contains url then v else v ++ [url]

/-- outcome of one `fetch(url)` call: a parsed page, a non-success
HTTP status, or a thrown network error -/
inductive FetchOutcome (Page : Type) where
  | ok (page : Page)
  | httpError (status : Nat)
  | networkError (msg : String)

/-- a fetch that did not produce a page -/
def isFetchFailure {Page : Type} : FetchOutcome Page → Bool
  | FetchOutcome.ok _ => false
  | FetchOutcome.httpError _ => true
  | FetchOutcome.networkError _ => true

/-- `DocCrawler.fetchAndLoad`: failures on the index URL are thrown,
failures elsewhere are logged and turned into `null` -/
def fetchAndLoad {Page : Type} (fetch : String → FetchOutcome Page)
    (indexUrl url : String) : Except String (Option Page) :=
  match fetch url with
  | FetchOutcome.ok p => Except.ok (some p)
  | FetchOutcome.httpError s =>
    if url = indexUrl then Except.error ("Failed to fetch index page: HTTP " ++ toString s)
    else Except.ok none
  | FetchOutcome.networkError msg =>
    if url = indexUrl then Except.error msg
    else Except.ok none

/-- the `maxDepth` guard of `DocCrawler.processPage`
(`maxDepth !== undefined && depth > maxDepth`) -/
def depthExceeded (maxDepth : Option Int) (depth : Int) : Bool :=
  match maxDepth with
  | some d => depth > d
  | none => false

/-- the synchronous prefix of every `processPage` call of a batch: the
visited/depth guards run and the URL is marked visited before its fetch
is awaited, for every member of the batch, in batch order.  All calls
from the crawl loop pass depth `0`.  Returns the grown visited set and
the URLs whose fetches were actually started. -/
def phase1 (maxDepth : Option Int) (visited : List String) : List String → List String × List String
  | [] => (visited, [])
  | url :: rest =>
    if visited.contains url then phase1 maxDepth visited rest
    else if depthExceeded maxDepth 0 then phase1 maxDepth visited rest
    else
      let r := phase1 maxDepth (insertVisited visited url) rest
      (r.1, url :: r.2)

/-- the post-await remainder of the batch's `processPage` calls: each
started fetch resolves, successes append their entries and their
fresh (not-yet-visited) links, a thrown index-page error rejects the
whole batch -/
def phase2 {Page : Type} (fetch : String → FetchOutcome Page)
    (eE : Page → String → List DocEntry) (eL : Page → String → List String)
    (indexUrl : String) : CrawlState → List String → Except String CrawlState
  | st, [] => Except.ok st
  | st, url :: rest =>
    match fetchAndLoad fetch indexUrl url with
    | Except.error e => Except.error e
    | Except.ok none => phase2 fetch eE eL indexUrl st rest
    | Except.ok (some page) =>
      let newEntries := eE page url
      let links := eL page url
      let newLinks := links.filter (fun l => !(st.visited.contains l))
      phase2 fetch eE eL indexUrl
        { st with entries := st.entries ++ newEntries, queue := st.queue ++ newLinks } rest

/-- `await Promise.all(batch.map(url => this.processPage(url, 0)))`:
all guards and visited marks happen synchronously first, then the
fetch results are applied -/
def processBatch {Page : Type} (fetch : String → FetchOutcome Page)
    (eE : Page → String → List DocEntry) (eL : Page → String → List String)
    (maxDepth : Option Int) (indexUrl : String) (st : CrawlState)
    (batch : List String) : Except String CrawlState :=
  let p := phase1 maxDepth st.visited batch
  phase2 fetch eE eL indexUrl { st with visited := p.1 } p.2

/-- `this.options.maxConcurrent || 5`: zero and absent both fall back
to the default batch width of 5 -/
def effectiveMaxConcurrent (o : Option Nat) : Nat :=
  match o with
  | some n => if n = 0 then 5 else n
  | none => 5

/-- one iteration of the main loop of `DocCrawler.crawlAll`: splice up
to `maxConcurrent` URLs off the queue head as the batch, then process
the batch -/
def crawlStep {Page : Type} (fetch : String → FetchOutcome Page)
    (eE : Page → String → List DocEntry) (eL : Page → String → List String)
    (maxDepth : Option Int) (maxConcurrent : Option Nat) (indexUrl : String)
    (st : CrawlState) : Except String CrawlState :=
  let n := effectiveMaxConcurrent maxConcurrent
  processBatch fetch eE eL maxDepth indexUrl
    { st with queue := st.queue.drop n } (st.queue.take n)

/-- `DocCrawler.queueInitialPages`: fetch the index page and enqueue
its links; an index fetch failure is thrown out of the crawl -/
def queueInitialPages {Page : Type} (fetch : String → FetchOutcome Page)
    (eL : Page → String → List String) (indexUrl : String)
    (st : CrawlState) : Except String CrawlState :=
  match fetchAndLoad fetch indexUrl indexUrl with
  | Except.error e => Except.error e
  | Except.ok none => Except.ok st
  | Except.ok (some page) =>
    Except.ok { st with queue := st.queue ++ eL page indexUrl }

/- ### Checkpoint restore (`DocCrawler.restoreCheckpoint`) -/

/-- the shape of a parsed checkpoint document -/
structure Checkpoint where
  visited : List String
  queue : List String
  entries : List DocEntry
deriving DecidableEq

/-- `DocCrawler.restoreCheckpoint`: `fileContent` is `none` when
`existsSync` is false (start fresh), otherwise the file's bytes;
`parseJson` is the external JSON parser, `none` modelling a thrown
parse error, which the method rethrows -/
def restoreCheckpoint (fileContent : Option String)
    (parseJson : String → Option Checkpoint) (st : CrawlState) : Except String CrawlState :=
  match fileContent with
  | none => Except.ok st
  | some content =>
    match parseJson content with
    | none => Except.error ("Failed to restore checkpoint")
    | some cp =>
      Except.ok { st with visited := cp.visited, queue := cp.queue, entries := cp.entries }

/- ### URL normalization (`DocCrawler.normalizeUrl`) -/

/-- the observable state of a WHATWG `URL` object: the serialized URL
minus its fragment, and the fragment (`hash`, empty or starting with
the hash mark) -/
structure URLRec where
  core : String
  hash : String
deriving DecidableEq

/-- `URL.prototype.toString`: serialization is core followed by hash -/
def urlString (r : URLRec) : String := r.core ++ r.hash

/-- `DocCrawler.normalizeUrl`: parse (`new URL(url)`), clear the hash,
serialize.  `parse` is the external WHATWG parser; `none` models the
constructor throwing on invalid input. -/
def normalizeUrl (parse : String → Option URLRec) (url : String) : Option String :=
  (parse url).map (fun r => urlString { r with hash := "" })

/- ### Hierarchy builder (`DocCrawler.establishHierarchy`) -/

/-- JS array access `entries[j]` -/
def nth {α : Type} : List α → Nat → Option α
  | [], _ => none
  | a :: _, 0 => some a
  | _ :: as, n+1 => nth as n

/-- in-place mutation of the array cell at an index -/
def setAt {α : Type} : List α → Nat → α → List α
  | [], _, _ => []
  | _ :: xs, 0, a => a :: xs
  | x :: xs, n+1, a => x :: setAt xs n a

/-- JS `entries.find(p)` as an index search -/
def findIdxBy {α : Type} (p : α → Bool) : List α → Option Nat
  | [] => none
  | a :: as => if p a then some 0 else (findIdxBy p as).map (fun n => n + 1)

/-- the first `n` array cells (used to describe the fold prefix) -/
def firstN {α : Type} : Nat → List α → List α
  | 0, _ => []
  | _+1, [] => []
  | n+1, x :: xs => x :: firstN n xs

/-- the body of the `forEach` in `DocCrawler.establishHierarchy` at
index `j`: split the id on dots, and when a dotted id's parent entry
is found, set the child's `parent` and push onto the parent's
`children` -/
def hierarchyStep (state : List DocEntry) (j : Nat) : List DocEntry :=
  match nth state j with
  | none => state
  | some entry =>
    let parts := jsSplitDot entry.id
    if parts.length > 1 then
      let parentId := joinDots parts.dropLast
      match findIdxBy (fun e => e.id == parentId) state with
      | some i =>
        let state1 := setAt state j { entry with parent := some parentId }
        match nth state1 i with
        | some p =>
          setAt state1 i { p with children := some ((p.children.getD []) ++ [entry.id]) }
        | none => state1
      | none => state
    else state

/-- `DocCrawler.establishHierarchy`: the `forEach` over the whole
entry list -/
def establishHierarchy (entries : List DocEntry) : List DocEntry :=
  (List.range entries.length).foldl hierarchyStep entries

/-- declarative description of the parent an entry ends up with: the
id minus its last dot segment, exactly when some entry carries that id -/
def hierParentId (id : String) : Option String :=
  let parts := jsSplitDot id
  if parts.length > 1 then some (joinDots parts.dropLast) else none

/-- declarative parent after the pass -/
def hierParentAfter (es : List DocEntry) (e : DocEntry) : Option String :=
  match hierParentId e.id with
  | some pid => if (findIdxBy (fun x => x.id == pid) es).isSome then some pid else e.parent
  | none => e.parent

/-- which entry (by index) receives a given child -/
def hierChildTarget (es : List DocEntry) (c : DocEntry) : Option Nat :=
  match hierParentId c.id with
  | some pid => findIdxBy (fun x => x.id == pid) es
  | none => none

/-- the child ids appended to the entry at index `k`, in processing
order of the children drawn from the prefix `pre` -/
def hierAdded (pre es : List DocEntry) (k : Nat) : List String :=
  (pre.filter (fun c => hierChildTarget es c == some k)).map (fun c => c.id)

/-- declarative children after processing the prefix `pre` -/
def hierChildrenAfter (pre es : List DocEntry) (k : Nat) (e : DocEntry) : Option (List String) :=
  if hierAdded pre es k = [] then e.children
  else some ((e.children.getD []) ++ hierAdded pre es k)

/-- the closed form of the state after `n` steps of the pass, at
index `k` holding input entry `e` -/
def hierEntryAt (es : List DocEntry) (n k : Nat) (e : DocEntry) : DocEntry :=
  { e with
    parent := if k < n then hierParentAfter es e else e.parent
    children := hierChildrenAfter (firstN n es) es k e }

/- ### Shared concrete fixtures for witnesses -/

/-- a pattern bundle in which nothing matches -/
def noPatterns : Patterns :=
  { isClass := fun _ => false
    isMethod := fun _ => false
    isFunction := fun _ => false
    isModule := fun _ => false
    isProperty := fun _ => false
    nameExtract := fun _ => none
    idExtract := none
    signatureClean := none }

/-- a minimal selector bundle -/
def baseSelectors : Selectors :=
  { navigationLinks := "nav a"
    subNavigationLinks := none
    contentLinks := "dl.entry"
    title := "h1"
    name := "dt"
    id := none
    description := ["p.desc"]
    examples := []
    parameters := none
    returns := none
    type := none
    «namespace» := none
    signature := none
    methods := none
    properties := none }

/-- a minimal configuration -/
def baseSource : DocSource :=
  { name := "test"
    baseUrl := "http://docs.example/"
    version := none
    indexUrl := "http://docs.example/index"
    selectors := baseSelectors
    patterns := noPatterns
    defaultLanguage := "text" }

/-- a fresh crawl state -/
def freshState : CrawlState := { visited := [], queue := [], entries := [] }

/- ### C4: checkpoint restore -/

/-- C4: when a resume file is given, a successful restore replaces
`visited`, `queue` and `entries` wholesale with the checkpoint's
contents; an absent file leaves the state untouched and is no error;
an existing file that fails to parse makes restore fail fatally. -/
theorem restoreCheckpoint_spec (parseJson : String → Option Checkpoint) (st : CrawlState) :
    (restoreCheckpoint none parseJson st = Except.ok st) ∧
    (∀ content, parseJson content = none →
      restoreCheckpoint (some content) parseJson st =
        Except.error ("Failed to restore checkpoint")) ∧
    (∀ content cp, parseJson content = some cp →
      restoreCheckpoint (some content) parseJson st =
        Except.ok { visited := cp.visited, queue := cp.queue, entries := cp.entries }) := by
  refine ⟨rfl, ?_, ?_⟩
  · intro content h
    simp [restoreCheckpoint, h]
  · intro content cp h
    simp [restoreCheckpoint, h]

/-- a concrete JSON parser accepting exactly one document -/
def parseCheckpointW (s : String) : Option Checkpoint :=
  if s = "good" then some { visited := ["http://a"], queue := ["http://b"], entries := [] }
  else none

/-- C4 witness at concrete inputs -/
theorem restoreCheckpoint_spec_witness :
    restoreCheckpoint none parseCheckpointW freshState = Except.ok freshState ∧
    restoreCheckpoint (some ("bad")) parseCheckpointW freshState =
      Except.error ("Failed to restore checkpoint") ∧
    restoreCheckpoint (some ("good")) parseCheckpointW freshState =
      Except.ok { visited := ["http://a"], queue := ["http://b"], entries := [] } := by
  refine ⟨(restoreCheckpoint_spec parseCheckpointW freshState).1,
    (restoreCheckpoint_spec parseCheckpointW freshState).2.1 ("bad") (by decide),
    (restoreCheckpoint_spec parseCheckpointW freshState).2.2 ("good")
      { visited := ["http://a"], queue := ["http://b"], entries := [] } (by decide)⟩

/- ### C6: URL normalization -/

/-- C6: for every URL string the parser accepts, `normalizeUrl` strips
the fragment (re-parsing its output yields an empty hash) and is
idempotent.  `hrt` is the serializer/parser round-trip contract of the
external WHATWG URL collaborator, stated only for records reachable
from a successful parse. -/
theorem normalizeUrl_spec (parse : String → Option URLRec)
    (hrt : ∀ u r, parse u = some r →
      parse (urlString { r with hash := "" }) = some { r with hash := "" })
    (u : String) (r : URLRec) (h : parse u = some r) :
    normalizeUrl parse u = some (urlString { r with hash := "" }) ∧
    (∀ r2, parse (urlString { r with hash := "" }) = some r2 → r2.hash = "") ∧
    normalizeUrl parse (urlString { r with hash := "" }) =
      some (urlString { r with hash := "" }) := by
  refine ⟨by simp [normalizeUrl, h], ?_, ?_⟩
  · intro r2 h2
    rw [hrt u r h] at h2
    cases h2
    cases r
    rfl
  · unfold normalizeUrl
    rw [hrt u r h]
    cases r
    rfl

/-- the part of a URL before the first hash mark -/
def coreChars : List Char → List Char
  | [] => []
  | c :: cs => if c = '#' then [] else c :: coreChars cs

/-- the part of a URL from the first hash mark on -/
def hashChars : List Char → List Char
  | [] => []
  | c :: cs => if c = '#' then c :: cs else hashChars cs

/-- a concrete URL parser splitting at the first hash mark -/
def parseHashUrl (s : String) : Option URLRec :=
  some { core := String.mk (coreChars s.toList), hash := String.mk (hashChars s.toList) }

theorem coreChars_fix (l : List Char) :
    coreChars (coreChars l) = coreChars l ∧ hashChars (coreChars l) = [] := by
  induction l with
  | nil => exact ⟨rfl, rfl⟩
  | cons c cs ih =>
    by_cases h : c = '#'
    · simp [coreChars, hashChars, h]
    · simp [coreChars, hashChars, h, ih.1, ih.2]

theorem parseHashUrl_contract : ∀ u r, parseHashUrl u = some r →
    parseHashUrl (urlString { r with hash := "" }) = some { r with hash := "" } := by
  intro u r h
  have h2 : ({ core := String.mk (coreChars u.toList)
               hash := String.mk (hashChars u.toList) } : URLRec) = r := by
    simpa [parseHashUrl] using h
  subst h2
  have hmk : String.mk (coreChars u.toList) ++ "" = String.mk (coreChars u.toList) := by
    show String.mk (coreChars u.toList ++ []) = String.mk (coreChars u.toList)
    rw [List.append_nil]
  show parseHashUrl (String.mk (coreChars u.toList) ++ "") = _
  rw [hmk]
  show some _ = _
  simp [parseHashUrl]
  constructor
  · exact congrArg String.mk (coreChars_fix u.data).1
  · exact congrArg String.mk (coreChars_fix u.data).2

/-- C6 witness at a concrete URL with a fragment -/
theorem normalizeUrl_spec_witness :
    normalizeUrl parseHashUrl ("http://e/x#f") = some ("http://e/x") ∧
    normalizeUrl parseHashUrl ("http://e/x") = some ("http://e/x") := by
  have h := normalizeUrl_spec parseHashUrl parseHashUrl_contract ("http://e/x#f")
    { core := "http://e/x", hash := "#f" } (by decide)
  have e1 : urlString { core := "http://e/x", hash := "" } = ("http://e/x" : String) := by decide
  constructor
  · rw [h.1, e1]
  · have h3 := h.2.2
    rw [e1] at h3
    exact h3

/- ### C7: generic text collection -/

/-- the texts one selector contributes: all its matches, trimmed,
empties dropped -/
def collectSel {E : Type} (d : Dom E) (context : E) (sel : String) : List String :=
  ((d.find context sel).map (fun el => jsTrim (d.text el))).filter (fun s => s ≠ "")

/-- C7: `extractText` concatenates, selector by selector in the given
order, all matched elements' trimmed non-empty texts; every selector
contributes all of its matches, so anything a later (fallback)
selector collects survives in the result alongside the primary's. -/
theorem extractText_all_selectors {E : Type} (d : Dom E) (context : E) (sel : String)
    (rest : List String) (t : String) :
    extractText d (SelArg.many (sel :: rest)) context =
      collectSel d context sel ++ extractText d (SelArg.many rest) context ∧
    extractText d (SelArg.many []) context = [] ∧
    extractText d (SelArg.one sel) context = collectSel d context sel ∧
    (t ∈ extractText d (SelArg.many rest) context →
      t ∈ extractText d (SelArg.many (sel :: rest)) context) := by
  have h1 : extractText d (SelArg.many (sel :: rest)) context =
      collectSel d context sel ++ extractText d (SelArg.many rest) context := by
    simp [extractText, collectSel]
  refine ⟨h1, rfl, ?_, ?_⟩
  · simp [extractText, collectSel]
  · intro ht
    rw [h1]
    exact List.mem_append_right _ ht

/-- a page with one primary and one fallback description paragraph -/
def domC7 : Dom Nat :=
  { find := fun e s =>
      if e = 0 ∧ s = "p.primary" then [1]
      else if e = 0 ∧ s = "p.fallback" then [2]
      else []
    text := fun e => if e = 1 then "first" else if e = 2 then "second" else ""
    attr := fun _ _ => none }

/-- C7 witness: the fallback selector contributes even though the
primary matched -/
theorem extractText_all_selectors_witness :
    ("second" ∈ extractText domC7 (SelArg.many [("p.primary"), ("p.fallback")]) 0) ∧
    extractText domC7 (SelArg.many [("p.primary"), ("p.fallback")]) 0 = ["first", "second"] := by
  refine ⟨(extractText_all_selectors domC7 0 ("p.primary") [("p.fallback")] ("second")).2.2.2
    (by decide), by decide⟩

/- ### C8: parameter extraction scoping -/

/-- C8 amended: parameter extraction is scoped to the first element
matched by the selector `dt.sig`, which is hardcoded in the crawler
rather than drawn from the declarative configuration; the rest of the
page is never consulted, and without such an element the entry yields
no parameters. -/
theorem extractParameters_scope {E : Type} (d : Dom E) (src : DocSource) (context : E) :
    extractParameters d src context =
      (match src.selectors.parameters with
      | none => []
      | some ps =>
        match (d.find context ("dt.sig")).head? with
        | none => []
        | some firstSig => extractParametersFromSig d ps firstSig) := by
  unfold extractParameters extractParametersFromSig
  rfl

/-- classification patterns are irrelevant to parameter extraction -/
def cexSelectors : Selectors :=
  { baseSelectors with
    parameters := some [ParamSel.str ("span.param")]
    signature := some ("dt.sigc") }

/-- a configuration whose own signature selector is `dt.sigc` -/
def cexSrc : DocSource := { baseSource with selectors := cexSelectors }

/-- a page whose configured signature element (1) holds a matching
parameter element (2), but which has no `dt.sig` element at all -/
def cexDomA : Dom Nat :=
  { find := fun e s =>
      if e = 0 ∧ s = "dt.sigc" then [1]
      else if e = 1 ∧ s = "span.param" then [2]
      else []
    text := fun e => if e = 2 then "x" else ""
    attr := fun _ _ => none }

/-- the same page except that element 1 also matches `dt.sig` -/
def cexDomB : Dom Nat :=
  { find := fun e s =>
      if e = 0 ∧ s = "dt.sig" then [1]
      else if e = 0 ∧ s = "dt.sigc" then [1]
      else if e = 1 ∧ s = "span.param" then [2]
      else []
    text := fun e => if e = 2 then "x" else ""
    attr := fun _ _ => none }

/-- every selector string occurring in `cexSrc` -/
def cexConfigSelectors : List String :=
  ["nav a", "dl.entry", "h1", "dt", "p.desc", "span.param", "dt.sigc"]

/-- the elements of the counterexample page -/
def cexElems : List Nat := [0, 1, 2]

/-- the two pages agree on every selector the configuration mentions
and on every element's text -/
def cexDomsAgree : Bool :=
  (cexElems.all fun e => cexConfigSelectors.all fun s => cexDomA.find e s == cexDomB.find e s) &&
  (cexElems.all fun e => cexDomA.text e == cexDomB.text e)

/-- C8 counterexample: two pages indistinguishable through every
configured selector give different parameter sets, and the page whose
configured signature element contains a matching parameter descriptor
element yields no parameters at all — the scoping is decided by the
hardcoded `dt.sig` selector, not by the declarative configuration. -/
theorem extractParameters_config_cex :
    cexDomsAgree = true ∧
    cexDomA.find 0 ("dt.sigc") = [1] ∧
    extractParametersFromSig cexDomA [ParamSel.str ("span.param")] 1 ≠ [] ∧
    extractParameters cexDomA cexSrc 0 = [] ∧
    extractParameters cexDomB cexSrc 0 ≠ extractParameters cexDomA cexSrc 0 := by
  refine ⟨by decide, by decide, by decide, by decide, by decide⟩

/- ### C1: type determination priority -/

/-- C1: entry types are decided by testing the element's full text
against isClass, isMethod, isFunction, isModule, isProperty in that
fixed order, first match winning: a text matching both the class and
the method pattern is classified `class`; matching none of the five
yields `none`, and such an element produces no entry (a silent skip,
not an error). -/
theorem determineType_priority {E : Type} (env : Env E) (src : DocSource) (el : E)
    (url : String) (ns : List String) :
    (src.patterns.isClass (env.dom.text el) = true →
      determineType env.dom src.patterns el = some EntryType.«class») ∧
    (determineType env.dom src.patterns el = some EntryType.method ↔
      src.patterns.isClass (env.dom.text el) = false ∧
      src.patterns.isMethod (env.dom.text el) = true) ∧
    (determineType env.dom src.patterns el = some EntryType.function ↔
      src.patterns.isClass (env.dom.text el) = false ∧
      src.patterns.isMethod (env.dom.text el) = false ∧
      src.patterns.isFunction (env.dom.text el) = true) ∧
    (determineType env.dom src.patterns el = some EntryType.module ↔
      src.patterns.isClass (env.dom.text el) = false ∧
      src.patterns.isMethod (env.dom.text el) = false ∧
      src.patterns.isFunction (env.dom.text el) = false ∧
      src.patterns.isModule (env.dom.text el) = true) ∧
    (determineType env.dom src.patterns el = some EntryType.property ↔
      src.patterns.isClass (env.dom.text el) = false ∧
      src.patterns.isMethod (env.dom.text el) = false ∧
      src.patterns.isFunction (env.dom.text el) = false ∧
      src.patterns.isModule (env.dom.text el) = false ∧
      src.patterns.isProperty (env.dom.text el) = true) ∧
    (determineType env.dom src.patterns el = none ↔
      src.patterns.isClass (env.dom.text el) = false ∧
      src.patterns.isMethod (env.dom.text el) = false ∧
      src.patterns.isFunction (env.dom.text el) = false ∧
      src.patterns.isModule (env.dom.text el) = false ∧
      src.patterns.isProperty (env.dom.text el) = false) ∧
    (determineType env.dom src.patterns el = none →
      extractEntry env src el url ns = none) := by
  have hlast : determineType env.dom src.patterns el = none →
      extractEntry env src el url ns = none := by
    intro h
    unfold extractEntry
    rw [h]
  refine ⟨?_, ?_, ?_, ?_, ?_, ?_, hlast⟩ <;>
  · cases hc : src.patterns.isClass (env.dom.text el) <;>
      cases hm : src.patterns.isMethod (env.dom.text el) <;>
      cases hf : src.patterns.isFunction (env.dom.text el) <;>
      cases hmo : src.patterns.isModule (env.dom.text el) <;>
      cases hp : src.patterns.isProperty (env.dom.text el) <;>
      simp [determineType, hc, hm, hf, hmo, hp]

/-- a page whose single element reads like both a class and a method -/
def domC1 : Dom Unit :=
  { find := fun _ _ => []
    text := fun _ => "class Foo:"
    attr := fun _ _ => none }

/-- patterns where the class and method tests both fire -/
def patternsC1 : Patterns :=
  { noPatterns with
    isClass := fun s => s == "class Foo:"
    isMethod := fun _ => true }

def srcC1 : DocSource := { baseSource with patterns := patternsC1 }

def envC1 : Env Unit :=
  { dom := domC1
    resolve := fun h _ => h
    normalize := fun u => u
    scrapedAt := "t0" }

/-- a page whose element matches none of the five patterns -/
def domC1b : Dom Unit :=
  { find := fun _ _ => []
    text := fun _ => "plain prose"
    attr := fun _ _ => none }

def envC1b : Env Unit :=
  { dom := domC1b
    resolve := fun h _ => h
    normalize := fun u => u
    scrapedAt := "t0" }

/-- C1 witness: class beats method when both match; a no-match element
yields no entry -/
theorem determineType_priority_witness :
    determineType domC1 patternsC1 () = some EntryType.«class» ∧
    extractEntry envC1b baseSource () ("http://docs.example/p") [] = none := by
  refine ⟨(determineType_priority envC1 srcC1 () ("http://docs.example/p") []).1 (by decide), ?_⟩
  exact (determineType_priority envC1b baseSource () ("http://docs.example/p") []).2.2.2.2.2.2
    (by decide)

/- ### C2: parameter optionality -/

/-- the name a rich parameter descriptor resolves before cleanup
(the value the optional pattern is tested against) -/
def richRawName {E : Type} (d : Dom E) (pc : ParameterConfig) (el : E) : Option String :=
  let name0 := match pc.nameSelector with
    | some ns => jsTrim (selText d (d.find el ns))
    | none => jsTrim (d.text el)
  match pc.namePattern with
  | some pat => truthyGroup (pat name0)
  | none => some name0

/-- the default value a rich parameter descriptor resolves -/
def richDefault {E : Type} (d : Dom E) (pc : ParameterConfig) (el : E) : Option String :=
  let default0 : Option String := match pc.defaultSelector with
    | some ds =>
      let t := jsTrim (selText d (d.find el ds))
      if t = "" then none else some t
    | none => none
  match default0, pc.defaultPattern with
  | some v, some pat =>
    some (match truthyGroup (pat v) with
      | some g => g
      | none => v)
  | v, _ => v

/-- the optional-pattern test of `extractRichParam`, applied when both
a pattern and a resolved raw name exist -/
def optMatchTest (o : Option (String → Bool)) (r : Option String) : Bool :=
  match o, r with
  | some t, some nm => t nm
  | _, _ => false

theorem optMatchTest_none (r : Option String) : optMatchTest none r = false := by
  cases r <;> rfl

/-- every parameter a rich descriptor emits carries the resolved
default, and its optional flag is that default's presence OR-ed with
the optional-pattern test on the raw name -/
theorem extractRichParam_fields {E : Type} (d : Dom E) (pc : ParameterConfig) (el : E)
    (p : Parameter) (h : extractRichParam d pc el = some p) :
    p.default = richDefault d pc el ∧
    p.optional = ((richDefault d pc el).isSome ||
      optMatchTest pc.optionalPattern (richRawName d pc el)) := by
  simp only [extractRichParam] at h
  split at h
  · exact Option.noConfusion h
  next name heq =>
    have hr : richRawName d pc el = some name := heq
    split at h
    all_goals try split at h
    all_goals
      first
      | exact Option.noConfusion h
      | (injection h with h2
         subst h2
         refine ⟨rfl, ?_⟩
         rw [hr]
         cases ho : pc.optionalPattern <;> rfl)

/-- C2: if a rich parameter descriptor found a default value, the
emitted parameter is optional regardless of the optional pattern; with
no optional pattern configured, optionality is exactly default
presence; and a configured optional pattern can only raise the flag
(logical OR), never lower it. -/
theorem extractRichParam_optional {E : Type} (d : Dom E) (pc : ParameterConfig) (el : E)
    (p : Parameter) (h : extractRichParam d pc el = some p) :
    (p.default.isSome = true → p.optional = true) ∧
    (pc.optionalPattern = none → p.optional = p.default.isSome) ∧
    (∀ q, extractRichParam d { pc with optionalPattern := none } el = some q →
      q.default = p.default ∧ (q.optional = true → p.optional = true)) := by
  obtain ⟨hd, ho⟩ := extractRichParam_fields d pc el p h
  refine ⟨?_, ?_, ?_⟩
  · intro hs
    rw [hd] at hs
    rw [ho, hs]
    simp
  · intro hnone
    rw [ho, hd, hnone, optMatchTest_none]
    simp
  · intro q hq
    obtain ⟨hqd, hqo⟩ := extractRichParam_fields d { pc with optionalPattern := none } el q hq
    have ed : richDefault d { pc with optionalPattern := none } el = richDefault d pc el := rfl
    have epat : ({ pc with optionalPattern := none } : ParameterConfig).optionalPattern =
      (none : Option (String → Bool)) := rfl
    rw [ed, epat, optMatchTest_none] at hqo
    constructor
    · rw [hqd, ed, hd]
    · intro hqt
      rw [hqo] at hqt
      simp at hqt
      rw [ho, hqt]
      simp

/-- a parameter element (1) with a default-value child (2) and a
configured optional pattern that never matches -/
def domC2 : Dom Nat :=
  { find := fun e s => if e = 1 ∧ s = "span.default" then [2] else []
    text := fun e => if e = 1 then "count" else if e = 2 then "42" else ""
    attr := fun _ _ => none }

def pcC2 : ParameterConfig :=
  { selector := "li.param"
    nameSelector := none
    typeSelector := none
    descriptionSelector := none
    defaultSelector := some "span.default"
    optionalPattern := some (fun _ => false)
    namePattern := none
    typePattern := none
    defaultPattern := none
    restPattern := none }

def pC2 : Parameter :=
  { name := "count"
    type := none
    description := ""
    optional := true
    default := some "42"
    isRest := false }

/-- C2 witness: the default was found, the optional pattern rejects the
name, and the parameter is optional anyway -/
theorem extractRichParam_optional_witness :
    pC2.default.isSome = true ∧ pC2.optional = true := by
  refine ⟨by decide, (extractRichParam_optional domC2 pcC2 1 pC2 (by decide)).1 (by decide)⟩

/- ### C9 and C10: shape of an extracted entry -/

/-- a successfully extracted entry's `type` is the one `determineType`
chose for its element -/
theorem extractEntry_type {E : Type} (env : Env E) (src : DocSource) (el : E)
    (url : String) (ns : List String) (e : DocEntry)
    (h : extractEntry env src el url ns = some e) :
    determineType env.dom src.patterns el = some e.type := by
  simp only [extractEntry] at h
  split at h
  · exact Option.noConfusion h
  next type htype =>
    split at h
    · exact Option.noConfusion h
    next name hname =>
      injection h with h2
      subst h2
      rw [htype]
      refine congrArg some ?_
      (repeat' split) <;> rfl

/-- field structure of a successfully extracted entry: title and the
always-present collections come from the generic text collectors, and
the optional collections are only ever set to non-empty lists, the
class-member ones only when the element classified as a class -/
theorem extractEntry_shape {E : Type} (env : Env E) (src : DocSource) (el : E)
    (url : String) (ns : List String) (e : DocEntry)
    (h : extractEntry env src el url ns = some e) :
    e.title = (extractText env.dom (SelArg.one src.selectors.title) el).head? ∧
    e.description = extractText env.dom (SelArg.many src.selectors.description) el ∧
    e.examples = extractExamples env.dom src el ∧
    (∀ l, e.parameters = some l → l ≠ []) ∧
    (∀ l, e.methods = some l → l ≠ [] ∧
      determineType env.dom src.patterns el = some EntryType.«class») ∧
    (∀ l, e.properties = some l → l ≠ [] ∧
      determineType env.dom src.patterns el = some EntryType.«class») := by
  simp only [extractEntry] at h
  split at h
  · exact Option.noConfusion h
  next type htype =>
    split at h
    · exact Option.noConfusion h
    next name hname =>
      injection h with h2
      subst h2
      refine ⟨?_, ?_, ?_, ?_, ?_, ?_⟩
      · (repeat' split) <;> rfl
      · (repeat' split) <;> rfl
      · (repeat' split) <;> rfl
      · intro l hl
        (repeat' split at hl) <;>
          first
          | exact Option.noConfusion hl
          | (injection hl with h3
             subst h3
             exact List.ne_nil_of_length_pos (by assumption))
      · intro l hl
        (repeat' split at hl) <;>
          first
          | exact Option.noConfusion hl
          | (injection hl with h3
             subst h3
             refine ⟨List.ne_nil_of_length_pos (by assumption), ?_⟩
             rw [htype]
             exact congrArg some (by assumption))
      · intro l hl
        (repeat' split at hl) <;>
          first
          | exact Option.noConfusion hl
          | (injection hl with h3
             subst h3
             refine ⟨List.ne_nil_of_length_pos (by assumption), ?_⟩
             rw [htype]
             exact congrArg some (by assumption))

/-- C9: when no element matches the title selector inside the entry's
scope (or every match trims to empty), the extracted entry's `title`
is absent, even though the TypeScript `DocEntry` interface declares
`title` as an always-present string. -/
theorem extractEntry_title_undefined {E : Type} (env : Env E) (src : DocSource) (el : E)
    (url : String) (ns : List String) (e : DocEntry)
    (h : extractEntry env src el url ns = some e) :
    e.title = (extractText env.dom (SelArg.one src.selectors.title) el).head? ∧
    (extractText env.dom (SelArg.one src.selectors.title) el = [] → e.title = none) := by
  have h1 := (extractEntry_shape env src el url ns e h).1
  exact ⟨h1, fun hz => by rw [h1, hz]; rfl⟩

/-- C10: `parameters`, `methods` and `properties` are non-empty
whenever present — an empty extraction leaves the field absent —
while `description` and `examples` are always present (possibly
empty), and the class-member collections appear only on entries whose
element was classified `class`. -/
theorem extractEntry_optional_collections {E : Type} (env : Env E) (src : DocSource) (el : E)
    (url : String) (ns : List String) (e : DocEntry)
    (h : extractEntry env src el url ns = some e) :
    (∀ l, e.parameters = some l → l ≠ []) ∧
    (∀ l, e.methods = some l → l ≠ [] ∧ e.type = EntryType.«class») ∧
    (∀ l, e.properties = some l → l ≠ [] ∧ e.type = EntryType.«class») ∧
    e.description = extractText env.dom (SelArg.many src.selectors.description) el ∧
    e.examples = extractExamples env.dom src el := by
  obtain ⟨_, hd, hx, hp, hm, hpr⟩ := extractEntry_shape env src el url ns e h
  have htype := extractEntry_type env src el url ns e h
  refine ⟨hp, ?_, ?_, hd, hx⟩
  · intro l hl
    obtain ⟨h1, h2⟩ := hm l hl
    rw [htype] at h2
    exact ⟨h1, (Option.some.inj h2)⟩
  · intro l hl
    obtain ⟨h1, h2⟩ := hpr l hl
    rw [htype] at h2
    exact ⟨h1, (Option.some.inj h2)⟩

/-- a page whose only element is a function signature and nothing
matches the title selector -/
def domC9 : Dom Unit :=
  { find := fun _ _ => []
    text := fun _ => "fn foo("
    attr := fun _ _ => none }

def patternsC9 : Patterns :=
  { noPatterns with
    isFunction := fun _ => true
    nameExtract := fun _ => some "foo" }

def srcC9 : DocSource := { baseSource with patterns := patternsC9 }

def envC9 : Env Unit :=
  { dom := domC9
    resolve := fun h _ => h
    normalize := fun u => u
    scrapedAt := "t0" }

def eC9 : DocEntry :=
  { id := "foo"
    type := EntryType.function
    «namespace» := []
    name := "foo"
    title := none
    description := []
    signature := none
    source := { name := "test", url := "http://p", normalizedUrl := "http://p", version := none }
    parameters := none
    returns := none
    examples := []
    parent := none
    children := none
    scrapedAt := "t0"
    methods := none
    properties := none }

/-- C9 witness: a successful extraction with no title match has an
absent title -/
theorem extractEntry_title_undefined_witness :
    extractText domC9 (SelArg.one ("h1")) () = [] ∧ eC9.title = none := by
  refine ⟨by decide, ?_⟩
  exact (extractEntry_title_undefined envC9 srcC9 () ("http://p") [] eC9 (by decide)).2 (by decide)

/-- a class element (0) with one method container (1) whose name
element (2) reads doIt -/
def domC10 : Dom Nat :=
  { find := fun e s =>
      if e = 0 ∧ s = "div.method" then [1]
      else if e = 1 ∧ s = "span.mname" then [2]
      else []
    text := fun e => if e = 0 then "class Foo:" else if e = 2 then "doIt" else ""
    attr := fun _ _ => none }

def patternsC10 : Patterns :=
  { noPatterns with
    isClass := fun _ => true
    nameExtract := fun _ => some "Foo" }

def srcC10 : DocSource :=
  { baseSource with
    patterns := patternsC10
    selectors := { baseSelectors with
      methods := some
        { container := "div.method"
          name := "span.mname"
          description := ["p.mdesc"]
          signature := none
          isStatic := none
          isPrivate := none
          decorators := none } } }

def envC10 : Env Nat :=
  { dom := domC10
    resolve := fun h _ => h
    normalize := fun u => u
    scrapedAt := "t0" }

def mC10 : Method :=
  { name := "doIt"
    description := []
    signature := none
    parameters := none
    returns := none
    examples := none
    isStatic := none
    isPrivate := none
    decorators := none }

def eC10 : DocEntry :=
  { id := "Foo"
    type := EntryType.«class»
    «namespace» := []
    name := "Foo"
    title := none
    description := []
    signature := none
    source := { name := "test", url := "http://p", normalizedUrl := "http://p", version := none }
    parameters := none
    returns := none
    examples := []
    parent := none
    children := none
    scrapedAt := "t0"
    methods := some [mC10]
    properties := none }

/-- C10 witness: a class entry whose populated methods list is
non-empty, on an entry of type class -/
theorem extractEntry_optional_collections_witness :
    ([mC10] ≠ []) ∧ eC10.type = EntryType.«class» := by
  exact (extractEntry_optional_collections envC10 srcC10 0 ("http://p") [] eC10
    (by decide)).2.1 [mC10] (by decide)

/- ### C5: fetch failures in the crawl loop -/

theorem contains_false_iff (l : List String) (a : String) :
    l.contains a = false ↔ ¬ a ∈ l := by
  rw [Bool.eq_false_iff]
  exact not_congr List.elem_iff

theorem insertVisited_contains_self (v : List String) (u : String) :
    (insertVisited v u).contains u = true := by
  unfold insertVisited
  split
  · assumption
  · exact List.elem_iff.mpr (List.mem_append_right v (List.mem_singleton.mpr rfl))

theorem insertVisited_mono (v : List String) (u w : String) (h : v.contains w = true) :
    (insertVisited v u).contains w = true := by
  unfold insertVisited
  split
  · exact h
  · exact List.elem_iff.mpr (List.mem_append_left _ (List.elem_iff.mp h))

theorem insertVisited_not_contains (v : List String) (u w : String) (hne : w ≠ u)
    (h : v.contains w = false) : (insertVisited v u).contains w = false := by
  unfold insertVisited
  split
  · exact h
  · rw [contains_false_iff] at h ⊢
    intro hmem
    rcases List.mem_append.mp hmem with h1 | h1
    · exact h h1
    · exact hne (List.mem_singleton.mp h1)

/-- the visited marks of the batch's synchronous phase only grow the set -/
theorem phase1_visited_mono (maxDepth : Option Int) (batch : List String) :
    ∀ visited w, visited.contains w = true →
      (phase1 maxDepth visited batch).1.contains w = true := by
  induction batch with
  | nil => intro v w h; exact h
  | cons url rest ih =>
    intro v w h
    unfold phase1
    split
    · exact ih v w h
    · split
      · exact ih v w h
      · exact ih (insertVisited v url) w (insertVisited_mono v url w h)

/-- with depth limiting inactive, every batch member is in the visited
set once the synchronous phase is over -/
theorem phase1_marks (maxDepth : Option Int) (batch : List String)
    (hmd : depthExceeded maxDepth 0 = false) :
    ∀ visited u, u ∈ batch →
      (phase1 maxDepth visited batch).1.contains u = true := by
  induction batch with
  | nil => intro v u h; exact absurd h (List.not_mem_nil u)
  | cons url rest ih =>
    intro v u hu
    unfold phase1
    split
    next hc =>
      rcases List.mem_cons.mp hu with he | hr
      · subst he; exact phase1_visited_mono _ _ _ _ hc
      · exact ih v u hr
    · split
      next hd => rw [hmd] at hd; exact Bool.noConfusion hd
      · rcases List.mem_cons.mp hu with he | hr
        · subst he
          exact phase1_visited_mono _ _ _ _ (insertVisited_contains_self v u)
        · exact ih (insertVisited v url) u hr

/-- a not-yet-visited batch member (depth limiting inactive) has its
fetch started -/
theorem phase1_pending_mem (maxDepth : Option Int) (batch : List String)
    (hmd : depthExceeded maxDepth 0 = false) :
    ∀ visited u, u ∈ batch → visited.contains u = false →
      u ∈ (phase1 maxDepth visited batch).2 := by
  induction batch with
  | nil => intro v u h _; exact absurd h (List.not_mem_nil u)
  | cons url rest ih =>
    intro v u hu hnc
    unfold phase1
    split
    next hc =>
      rcases List.mem_cons.mp hu with he | hr
      · subst he; rw [hnc] at hc; exact Bool.noConfusion hc
      · exact ih v u hr hnc
    · split
      next hd => rw [hmd] at hd; exact Bool.noConfusion hd
      · by_cases he : u = url
        · subst he; exact List.mem_cons_self u _
        · rcases List.mem_cons.mp hu with he2 | hr
          · exact absurd he2 he
          · exact List.mem_cons_of_mem url (ih (insertVisited v url) u hr
              (insertVisited_not_contains v url u he hnc))

/-- a batch whose awaited fetches all resolve leaves the visited set
untouched, and appends to the queue only links unvisited at batch
time -/
theorem phase2_ok_shape {Page : Type} (fetch : String → FetchOutcome Page)
    (eE : Page → String → List DocEntry) (eL : Page → String → List String)
    (indexUrl : String) (pending : List String) :
    ∀ st st', phase2 fetch eE eL indexUrl st pending = Except.ok st' →
      st'.visited = st.visited ∧
      ∃ added, st'.queue = st.queue ++ added ∧
        ∀ l, l ∈ added → st.visited.contains l = false := by
  induction pending with
  | nil =>
    intro st st' h
    injection h with h2
    subst h2
    exact ⟨rfl, [], by simp, by simp⟩
  | cons url rest ih =>
    intro st st' h
    unfold phase2 at h
    split at h
    · exact Except.noConfusion h
    · exact ih st st' h
    next page hfl =>
      obtain ⟨hv, added, hq, hnew⟩ := ih _ st' h
      refine ⟨hv, (eL page url).filter (fun l => !(st.visited.contains l)) ++ added, ?_, ?_⟩
      · rw [hq]
        simp [List.append_assoc]
      · intro l hl
        rcases List.mem_append.mp hl with h1 | h1
        · have h2 := (List.mem_filter.mp h1).2
          simpa using h2
        · exact hnew l h1

/-- if a started fetch includes the failing index URL, the batch's
await rejects -/
theorem phase2_err {Page : Type} (fetch : String → FetchOutcome Page)
    (eE : Page → String → List DocEntry) (eL : Page → String → List String)
    (indexUrl : String) (pending : List String)
    (hfail : isFetchFailure (fetch indexUrl) = true) :
    ∀ st, indexUrl ∈ pending →
      ∃ e, phase2 fetch eE eL indexUrl st pending = Except.error e := by
  induction pending with
  | nil => intro st h; exact absurd h (List.not_mem_nil indexUrl)
  | cons url rest ih =>
    intro st hmem
    by_cases he : url = indexUrl
    · subst he
      cases hf : fetch url with
      | ok p => rw [hf] at hfail; exact Bool.noConfusion hfail
      | httpError s =>
        refine ⟨"Failed to fetch index page: HTTP " ++ toString s, ?_⟩
        unfold phase2
        simp [fetchAndLoad, hf]
      | networkError m =>
        refine ⟨m, ?_⟩
        unfold phase2
        simp [fetchAndLoad, hf]
    · have hr : indexUrl ∈ rest := by
        rcases List.mem_cons.mp hmem with h1 | h1
        · exact absurd h1.symm he
        · exact h1
      cases hfl : fetchAndLoad fetch indexUrl url with
      | error e =>
        refine ⟨e, ?_⟩
        unfold phase2
        rw [hfl]
      | ok po =>
        cases po with
        | none =>
          obtain ⟨e, he2⟩ := ih st hr
          refine ⟨e, ?_⟩
          unfold phase2
          rw [hfl]
          exact he2
        | some page =>
          obtain ⟨e, he2⟩ := ih { st with
            entries := st.entries ++ eE page url
            queue := st.queue ++ (eL page url).filter (fun l => !(st.visited.contains l)) } hr
          refine ⟨e, ?_⟩
          unfold phase2
          rw [hfl]
          exact he2

/-- C5: a fetch failure on a non-index URL is recoverable — the crawl
step still succeeds, the URL was marked visited before its fetch and
stays visited, it contributes no entries and no links, and, having
been spliced off the queue when the batch was formed, it is never
re-enqueued (everything appended to the queue was unvisited, and the
URL is visited); a fetch failure of the index URL instead propagates
as an error, both while seeding and in the main loop. -/
theorem fetchFailure_recoverable {Page : Type} (fetch : String → FetchOutcome Page)
    (eE : Page → String → List DocEntry) (eL : Page → String → List String)
    (maxDepth : Option Int) (maxConcurrent : Option Nat) (indexUrl : String)
    (st : CrawlState) (u : String)
    (hfail : isFetchFailure (fetch u) = true)
    (hdepth : depthExceeded maxDepth 0 = false) :
    (u ≠ indexUrl → st.visited.contains u = false →
      processBatch fetch eE eL maxDepth indexUrl st [u] =
        Except.ok { st with visited := insertVisited st.visited u }) ∧
    (∀ st', u ∈ st.queue.take (effectiveMaxConcurrent maxConcurrent) →
      crawlStep fetch eE eL maxDepth maxConcurrent indexUrl st = Except.ok st' →
      st'.visited.contains u = true ∧
      ∃ added, st'.queue = st.queue.drop (effectiveMaxConcurrent maxConcurrent) ++ added ∧
        ¬ u ∈ added) ∧
    (u = indexUrl → u ∈ st.queue.take (effectiveMaxConcurrent maxConcurrent) →
      st.visited.contains u = false →
      ∃ e, crawlStep fetch eE eL maxDepth maxConcurrent indexUrl st = Except.error e) ∧
    (u = indexUrl → ∃ e, queueInitialPages fetch eL indexUrl st = Except.error e) := by
  refine ⟨?_, ?_, ?_, ?_⟩
  · intro h1 h2
    have h2m : ¬ u ∈ st.visited := (contains_false_iff _ _).mp h2
    cases hf : fetch u with
    | ok p => rw [hf] at hfail; exact Bool.noConfusion hfail
    | httpError s =>
      simp [processBatch, phase1, phase2, fetchAndLoad, h2, h2m, hdepth, hf, h1]
    | networkError m =>
      simp [processBatch, phase1, phase2, fetchAndLoad, h2, h2m, hdepth, hf, h1]
  · intro st' hu hok
    simp only [crawlStep, processBatch] at hok
    obtain ⟨hv, added, hq, hnew⟩ := phase2_ok_shape fetch eE eL indexUrl _ _ st' hok
    have hmark := phase1_marks maxDepth
      (st.queue.take (effectiveMaxConcurrent maxConcurrent)) hdepth st.visited u hu
    constructor
    · rw [hv]
      exact hmark
    · refine ⟨added, hq, ?_⟩
      intro hmem
      have h3 : (phase1 maxDepth st.visited
          (st.queue.take (effectiveMaxConcurrent maxConcurrent))).1.contains u = false :=
        hnew u hmem
      rw [h3] at hmark
      exact Bool.noConfusion hmark
  · intro he hu hnc
    subst he
    have hpend := phase1_pending_mem maxDepth
      (st.queue.take (effectiveMaxConcurrent maxConcurrent)) hdepth st.visited u hu hnc
    obtain ⟨e, he2⟩ := phase2_err fetch eE eL u _ hfail _ hpend
    refine ⟨e, ?_⟩
    simp only [crawlStep, processBatch]
    exact he2
  · intro he
    subst he
    cases hf : fetch u with
    | ok p => rw [hf] at hfail; exact Bool.noConfusion hfail
    | httpError s =>
      refine ⟨"Failed to fetch index page: HTTP " ++ toString s, ?_⟩
      unfold queueInitialPages
      simp [fetchAndLoad, hf]
    | networkError m =>
      refine ⟨m, ?_⟩
      unfold queueInitialPages
      simp [fetchAndLoad, hf]

/-- a fetcher failing on one ordinary URL and on the index URL -/
def fetchC5 (s : String) : FetchOutcome Unit :=
  if s = "http://bad" then FetchOutcome.networkError ("boom")
  else if s = "http://idx" then FetchOutcome.httpError 500
  else FetchOutcome.ok ()

def eEC5 : Unit → String → List DocEntry := fun _ _ => []

def eLC5 : Unit → String → List String := fun _ _ => []

def stC5 : CrawlState := { visited := [], queue := [], entries := [] }

/-- C5 witness: the failed page stays visited with nothing contributed,
and the failing index URL is a fatal error -/
theorem fetchFailure_recoverable_witness :
    processBatch fetchC5 eEC5 eLC5 none ("http://idx") stC5 [("http://bad")] =
      Except.ok { visited := ["http://bad"], queue := [], entries := [] } ∧
    (∃ e, queueInitialPages fetchC5 eLC5 ("http://idx") stC5 = Except.error e) := by
  have h := fetchFailure_recoverable fetchC5 eEC5 eLC5 none none ("http://idx") stC5
    ("http://bad") (by decide) (by decide)
  have h2 := fetchFailure_recoverable fetchC5 eEC5 eLC5 none none ("http://idx") stC5
    ("http://idx") (by decide) (by decide)
  exact ⟨(h.1 (by decide) (by decide)).trans (congrArg Except.ok (by decide)), h2.2.2.2 rfl⟩

/- ### C3: hierarchy builder -/

theorem nth_lt_length {α : Type} (l : List α) : ∀ (k : Nat) (a : α),
    nth l k = some a → k < l.length := by
  induction l with
  | nil => intro k a h; exact Option.noConfusion h
  | cons x xs ih =>
    intro k a h
    cases k with
    | zero => exact Nat.succ_pos _
    | succ m => exact Nat.succ_lt_succ (ih m a h)

theorem nth_none_of_ge {α : Type} (l : List α) : ∀ k, l.length ≤ k → nth l k = none := by
  induction l with
  | nil => intro k _; rfl
  | cons x xs ih =>
    intro k hk
    cases k with
    | zero => exact absurd hk (by simp)
    | succ m => exact ih m (Nat.le_of_succ_le_succ hk)

theorem nth_some_of_lt {α : Type} (l : List α) : ∀ n, n < l.length → ∃ a, nth l n = some a := by
  induction l with
  | nil => intro n h; exact absurd h (Nat.not_lt_zero n)
  | cons x xs ih =>
    intro n h
    cases n with
    | zero => exact ⟨x, rfl⟩
    | succ m => exact ih m (Nat.lt_of_succ_lt_succ h)

theorem length_setAt {α : Type} (l : List α) : ∀ (n : Nat) (a : α),
    (setAt l n a).length = l.length := by
  induction l with
  | nil => intro n a; rfl
  | cons x xs ih =>
    intro n a
    cases n with
    | zero => rfl
    | succ m => exact congrArg Nat.succ (ih m a)

theorem nth_setAt_self {α : Type} (l : List α) : ∀ (n : Nat) (a b : α),
    nth l n = some b → nth (setAt l n a) n = some a := by
  induction l with
  | nil => intro n a b h; exact Option.noConfusion h
  | cons x xs ih =>
    intro n a b h
    cases n with
    | zero => rfl
    | succ m => exact ih m a b h

theorem nth_setAt_ne {α : Type} (l : List α) : ∀ (n m : Nat) (a : α),
    m ≠ n → nth (setAt l n a) m = nth l m := by
  induction l with
  | nil => intro n m a _; rfl
  | cons x xs ih =>
    intro n m a hne
    cases n with
    | zero =>
      cases m with
      | zero => exact absurd rfl hne
      | succ k => rfl
    | succ n2 =>
      cases m with
      | zero => rfl
      | succ k => exact ih n2 k a (fun he => hne (congrArg Nat.succ he))

theorem setAt_setAt_same {α : Type} (l : List α) : ∀ (n : Nat) (a b : α),
    setAt (setAt l n a) n b = setAt l n b := by
  induction l with
  | nil => intro n a b; rfl
  | cons x xs ih =>
    intro n a b
    cases n with
    | zero => rfl
    | succ m => exact congrArg (List.cons x) (ih m a b)

theorem findIdxBy_some {α : Type} (p : α → Bool) (l : List α) : ∀ (i : Nat),
    findIdxBy p l = some i → ∃ a, nth l i = some a ∧ p a = true := by
  induction l with
  | nil => intro i h; exact Option.noConfusion h
  | cons x xs ih =>
    intro i h
    unfold findIdxBy at h
    split at h
    next hp =>
      injection h with h2
      subst h2
      exact ⟨x, rfl, hp⟩
    · cases hf : findIdxBy p xs with
      | none => rw [hf] at h; exact Option.noConfusion h
      | some j =>
        rw [hf] at h
        injection h with h2
        subst h2
        obtain ⟨a, ha, hpa⟩ := ih j hf
        exact ⟨a, ha, hpa⟩

theorem findIdxBy_isSome_eq_any {α : Type} (p : α → Bool) (l : List α) :
    (findIdxBy p l).isSome = l.any p := by
  induction l with
  | nil => rfl
  | cons x xs ih =>
    unfold findIdxBy
    by_cases hp : p x = true
    · simp [hp]
    · have hp2 : p x = false := by
        cases hpx : p x
        · rfl
        · exact absurd hpx hp
      cases hf : findIdxBy p xs with
      | none =>
        rw [hf] at ih
        simp [hp2, ← ih, hf]
      | some j =>
        rw [hf] at ih
        simp [hp2, ← ih, hf]

theorem findIdxBy_eq_of_map {α β : Type} (f : α → β) (p : β → Bool) :
    ∀ (l₁ l₂ : List α), l₁.map f = l₂.map f →
      findIdxBy (fun a => p (f a)) l₁ = findIdxBy (fun a => p (f a)) l₂ := by
  intro l₁
  induction l₁ with
  | nil =>
    intro l₂ h
    cases l₂ with
    | nil => rfl
    | cons y ys => exact List.noConfusion h
  | cons x xs ih =>
    intro l₂ h
    cases l₂ with
    | nil => exact List.noConfusion h
    | cons y ys =>
      injection h with h1 h2
      simp only [findIdxBy, h1, ih ys h2]

theorem map_eq_of_nth_map {α β : Type} (f : α → β) :
    ∀ (l₁ l₂ : List α), (∀ k, (nth l₁ k).map f = (nth l₂ k).map f) →
      l₁.map f = l₂.map f := by
  intro l₁
  induction l₁ with
  | nil =>
    intro l₂ h
    cases l₂ with
    | nil => rfl
    | cons y ys => exact Option.noConfusion (h 0)
  | cons x xs ih =>
    intro l₂ h
    cases l₂ with
    | nil => exact Option.noConfusion (h 0)
    | cons y ys =>
      have h0 := h 0
      injection h0 with h1
      have ht := ih ys (fun k => h (k+1))
      simp only [List.map_cons]
      rw [h1, ht]

theorem firstN_of_ge {α : Type} : ∀ (n : Nat) (l : List α), l.length ≤ n → firstN n l = l := by
  intro n
  induction n with
  | zero =>
    intro l hl
    cases l with
    | nil => rfl
    | cons x xs => exact absurd hl (by simp)
  | succ m ih =>
    intro l hl
    cases l with
    | nil => rfl
    | cons x xs => exact congrArg (List.cons x) (ih xs (Nat.le_of_succ_le_succ hl))

theorem firstN_succ_of_nth {α : Type} : ∀ (n : Nat) (l : List α) (a : α),
    nth l n = some a → firstN (n+1) l = firstN n l ++ [a] := by
  intro n
  induction n with
  | zero =>
    intro l a h
    cases l with
    | nil => exact Option.noConfusion h
    | cons x xs =>
      injection h with h1
      subst h1
      rfl
  | succ m ih =>
    intro l a h
    cases l with
    | nil => exact Option.noConfusion h
    | cons x xs => exact congrArg (List.cons x) (ih xs a h)

/-- the state after the first `n` iterations of the hierarchy pass -/
def stateAt (es : List DocEntry) (n : Nat) : List DocEntry :=
  (List.range n).foldl hierarchyStep es

theorem stateAt_succ (es : List DocEntry) (n : Nat) :
    stateAt es (n+1) = hierarchyStep (stateAt es n) n := by
  unfold stateAt
  rw [List.range_succ, List.foldl_append]
  rfl

theorem hierParentId_some_elim (id : String) (pid : String)
    (hp : hierParentId id = some pid) :
    (jsSplitDot id).length > 1 ∧ joinDots (jsSplitDot id).dropLast = pid := by
  simp only [hierParentId] at hp
  split at hp
  next hc => exact ⟨hc, Option.some.inj hp⟩
  · exact Option.noConfusion hp

theorem hierarchyStep_none_eq (state : List DocEntry) (n : Nat)
    (h : nth state n = none) : hierarchyStep state n = state := by
  unfold hierarchyStep
  rw [h]

theorem hierarchyStep_nodot (state : List DocEntry) (n : Nat) (entry : DocEntry)
    (h : nth state n = some entry) (hp : hierParentId entry.id = none) :
    hierarchyStep state n = state := by
  have hcond : ¬ ((jsSplitDot entry.id).length > 1) := by
    simp only [hierParentId] at hp
    split at hp
    next => exact Option.noConfusion hp
    next hc => exact hc
  unfold hierarchyStep
  rw [h]
  simp [hcond]

theorem hierarchyStep_nofind (state : List DocEntry) (n : Nat) (entry : DocEntry)
    (pid : String)
    (h : nth state n = some entry) (hp : hierParentId entry.id = some pid)
    (hf : findIdxBy (fun x => x.id == pid) state = none) :
    hierarchyStep state n = state := by
  obtain ⟨hc, hpid⟩ := hierParentId_some_elim entry.id pid hp
  unfold hierarchyStep
  rw [h]
  simp [hc, hpid, hf]

theorem hierarchyStep_found_eq (state : List DocEntry) (n : Nat) (entry : DocEntry)
    (pid : String) (i : Nat)
    (h : nth state n = some entry) (hp : hierParentId entry.id = some pid)
    (hf : findIdxBy (fun x => x.id == pid) state = some i) :
    hierarchyStep state n =
      (match nth (setAt state n { entry with parent := some pid }) i with
       | some p =>
         setAt (setAt state n { entry with parent := some pid }) i
           { p with children := some ((p.children.getD []) ++ [entry.id]) }
       | none => setAt state n { entry with parent := some pid }) := by
  obtain ⟨hc, hpid⟩ := hierParentId_some_elim entry.id pid hp
  unfold hierarchyStep
  rw [h]
  simp [hc, hpid, hf]

theorem hierParentAt_stable (n k : Nat) (hne : k ≠ n) (A B : Option String) :
    (if k < n+1 then A else B) = (if k < n then A else B) := by
  by_cases h : k < n
  · rw [if_pos h, if_pos (Nat.lt_succ_of_lt h)]
  · have h2 : ¬ k < n+1 := by omega
    rw [if_neg h, if_neg h2]

theorem hierAdded_succ (es : List DocEntry) (n k : Nat) (en : DocEntry)
    (hen : nth es n = some en) :
    hierAdded (firstN (n+1) es) es k =
      hierAdded (firstN n es) es k ++
        (if (hierChildTarget es en == some k) = true then [en.id] else []) := by
  unfold hierAdded
  rw [firstN_succ_of_nth n es en hen, List.filter_append, List.map_append]
  by_cases ht : (hierChildTarget es en == some k) = true
  · simp [List.filter_cons, ht]
  · simp [List.filter_cons, ht]

theorem hierChildrenAfter_getD (pre es : List DocEntry) (k : Nat) (e : DocEntry) :
    (hierChildrenAfter pre es k e).getD [] =
      (e.children.getD []) ++ hierAdded pre es k := by
  unfold hierChildrenAfter
  by_cases hz : hierAdded pre es k = []
  · rw [if_pos hz, hz]
    simp
  · rw [if_neg hz]
    rfl

theorem hierChildrenAfter_succ_stable (es : List DocEntry) (n k : Nat)
    (e en : DocEntry) (hen : nth es n = some en)
    (ht : (hierChildTarget es en == some k) = false) :
    hierChildrenAfter (firstN (n+1) es) es k e =
      hierChildrenAfter (firstN n es) es k e := by
  unfold hierChildrenAfter
  rw [hierAdded_succ es n k en hen]
  simp [ht]

theorem hierChildrenAfter_succ_push (es : List DocEntry) (n k : Nat)
    (e en : DocEntry) (hen : nth es n = some en)
    (ht : (hierChildTarget es en == some k) = true) :
    hierChildrenAfter (firstN (n+1) es) es k e =
      some (((hierChildrenAfter (firstN n es) es k e).getD []) ++ [en.id]) := by
  rw [hierChildrenAfter_getD]
  unfold hierChildrenAfter
  rw [hierAdded_succ es n k en hen]
  simp [ht, List.append_assoc]

/-- closed form of the hierarchy pass after `n` steps: every slot holds
its input entry with the declarative parent and children fields -/
theorem stateAt_closed (es : List DocEntry) : ∀ n : Nat,
    (stateAt es n).length = es.length ∧
    (∀ k e, nth es k = some e → nth (stateAt es n) k = some (hierEntryAt es n k e)) := by
  intro n
  induction n with
  | zero =>
    refine ⟨rfl, ?_⟩
    intro k e h
    have hz : hierEntryAt es 0 k e = e := by
      unfold hierEntryAt hierChildrenAfter hierAdded
      simp [firstN]
    rw [hz]
    exact h
  | succ n ih =>
    obtain ⟨ihlen, ihnth⟩ := ih
    rw [stateAt_succ]
    by_cases hn : n < es.length
    · obtain ⟨en, hen⟩ := nth_some_of_lt es n hn
      have hsn : nth (stateAt es n) n = some (hierEntryAt es n n en) := ihnth n en hen
      have hids : (stateAt es n).map (fun x => x.id) = es.map (fun x => x.id) := by
        apply map_eq_of_nth_map
        intro k
        cases hk : nth es k with
        | none =>
          have hklen : es.length ≤ k := by
            by_contra hlt
            obtain ⟨a, ha⟩ := nth_some_of_lt es k (Nat.lt_of_not_le hlt)
            rw [ha] at hk
            exact Option.noConfusion hk
          rw [nth_none_of_ge (stateAt es n) k (by rw [ihlen]; exact hklen)]
        | some a =>
          rw [ihnth k a hk]
          rfl
      cases hpo : hierParentId en.id with
      | none =>
        have hstep := hierarchyStep_nodot (stateAt es n) n (hierEntryAt es n n en) hsn hpo
        rw [hstep]
        refine ⟨ihlen, ?_⟩
        intro k e h
        rw [ihnth k e h]
        have hct : (hierChildTarget es en == some k) = false := by
          simp [hierChildTarget, hpo]
        by_cases hkn : k = n
        · subst hkn
          have he := Option.some.inj (hen.symm.trans h)
          subst he
          congr 1
          unfold hierEntryAt
          rw [hierChildrenAfter_succ_stable es k k en en hen hct,
              if_neg (Nat.lt_irrefl k), if_pos (Nat.lt_succ_self k),
              show hierParentAfter es en = en.parent from by simp [hierParentAfter, hpo]]
        · congr 1
          unfold hierEntryAt
          rw [hierChildrenAfter_succ_stable es n k e en hen hct,
              hierParentAt_stable n k hkn]
      | some pid =>
        cases hfo : findIdxBy (fun x => x.id == pid) es with
        | none =>
          have hfs : findIdxBy (fun x => x.id == pid) (stateAt es n) = none := by
            have hmap := findIdxBy_eq_of_map (fun x : DocEntry => x.id)
              (fun s => s == pid) (stateAt es n) es hids
            exact hmap.trans hfo
          have hstep := hierarchyStep_nofind (stateAt es n) n
            (hierEntryAt es n n en) pid hsn hpo hfs
          rw [hstep]
          refine ⟨ihlen, ?_⟩
          intro k e h
          rw [ihnth k e h]
          have hct : (hierChildTarget es en == some k) = false := by
            simp [hierChildTarget, hpo, hfo]
          by_cases hkn : k = n
          · subst hkn
            have he := Option.some.inj (hen.symm.trans h)
            subst he
            congr 1
            unfold hierEntryAt
            rw [hierChildrenAfter_succ_stable es k k en en hen hct,
                if_neg (Nat.lt_irrefl k), if_pos (Nat.lt_succ_self k),
                show hierParentAfter es en = en.parent from by
                  simp [hierParentAfter, hpo, hfo]]
          · congr 1
            unfold hierEntryAt
            rw [hierChildrenAfter_succ_stable es n k e en hen hct,
                hierParentAt_stable n k hkn]
        | some i =>
          obtain ⟨ei, hei, hpi⟩ := findIdxBy_some (fun x => x.id == pid) es i hfo
          have hfs : findIdxBy (fun x => x.id == pid) (stateAt es n) = some i := by
            have hmap := findIdxBy_eq_of_map (fun x : DocEntry => x.id)
              (fun s => s == pid) (stateAt es n) es hids
            exact hmap.trans hfo
          have hsi : nth (stateAt es n) i = some (hierEntryAt es n i ei) := ihnth i ei hei
          have hstep := hierarchyStep_found_eq (stateAt es n) n
            (hierEntryAt es n n en) pid i hsn hpo hfs
          have hctn : hierChildTarget es en = some i := by
            simp [hierChildTarget, hpo, hfo]
          by_cases hin : i = n
          · subst hin
            rw [hstep]
            simp only [nth_setAt_self (stateAt es i) i
              ({ hierEntryAt es i i en with parent := some pid }) (hierEntryAt es i i en) hsn,
              setAt_setAt_same]
            refine ⟨?_, ?_⟩
            · rw [length_setAt, ihlen]
            · intro k e h
              by_cases hki : k = i
              · subst hki
                have he := Option.some.inj (hen.symm.trans h)
                subst he
                rw [nth_setAt_self (stateAt es k) k _ _ hsn]
                congr 1
                have htt : (hierChildTarget es en == some k) = true := by
                  rw [hctn]
                  exact beq_self_eq_true _
                unfold hierEntryAt
                rw [hierChildrenAfter_succ_push es k k en en hen htt,
                    if_pos (Nat.lt_succ_self k), if_neg (Nat.lt_irrefl k),
                    show hierParentAfter es en = some pid from by
                      simp [hierParentAfter, hpo, hfo]]
              · rw [nth_setAt_ne (stateAt es i) i k _ hki, ihnth k e h]
                congr 1
                have hct : (hierChildTarget es en == some k) = false := by
                  rw [hctn, beq_eq_false_iff_ne]
                  intro hh
                  exact hki (Option.some.inj hh).symm
                unfold hierEntryAt
                rw [hierChildrenAfter_succ_stable es i k e en hen hct,
                    hierParentAt_stable i k hki]
          · have hset1 : nth (setAt (stateAt es n) n
                { hierEntryAt es n n en with parent := some pid }) i
                = some (hierEntryAt es n i ei) := by
              rw [nth_setAt_ne (stateAt es n) n i _ hin, hsi]
            rw [hstep]
            simp only [hset1]
            refine ⟨?_, ?_⟩
            · rw [length_setAt, length_setAt, ihlen]
            · intro k e h
              by_cases hki : k = i
              · subst hki
                have he := Option.some.inj (hei.symm.trans h)
                subst he
                rw [nth_setAt_self _ k _ _ hset1]
                congr 1
                have htt : (hierChildTarget es en == some k) = true := by
                  rw [hctn]
                  exact beq_self_eq_true _
                unfold hierEntryAt
                rw [hierChildrenAfter_succ_push es n k ei en hen htt,
                    hierParentAt_stable n k hin]
              · by_cases hkn : k = n
                · subst hkn
                  have he := Option.some.inj (hen.symm.trans h)
                  subst he
                  rw [nth_setAt_ne _ i k _ hki, nth_setAt_self _ k _ _ hsn]
                  congr 1
                  have hct : (hierChildTarget es en == some k) = false := by
                    rw [hctn, beq_eq_false_iff_ne]
                    intro hh
                    exact hki (Option.some.inj hh).symm
                  unfold hierEntryAt
                  rw [hierChildrenAfter_succ_stable es k k en en hen hct,
                      if_pos (Nat.lt_succ_self k), if_neg (Nat.lt_irrefl k),
                      show hierParentAfter es en = some pid from by
                        simp [hierParentAfter, hpo, hfo]]
                · rw [nth_setAt_ne _ i k _ hki, nth_setAt_ne _ n k _ hkn, ihnth k e h]
                  congr 1
                  have hct : (hierChildTarget es en == some k) = false := by
                    rw [hctn, beq_eq_false_iff_ne]
                    intro hh
                    exact hki (Option.some.inj hh).symm
                  unfold hierEntryAt
                  rw [hierChildrenAfter_succ_stable es n k e en hen hct,
                      hierParentAt_stable n k hkn]
    · have hge : es.length ≤ n := Nat.le_of_not_lt hn
      have hnone : nth (stateAt es n) n = none := by
        apply nth_none_of_ge
        rw [ihlen]
        exact hge
      rw [hierarchyStep_none_eq (stateAt es n) n hnone]
      refine ⟨ihlen, ?_⟩
      intro k e h
      rw [ihnth k e h]
      have hk : k < es.length := nth_lt_length es k e h
      congr 1
      unfold hierEntryAt
      rw [if_pos (by omega : k < n), if_pos (by omega : k < n+1),
          firstN_of_ge n es hge, firstN_of_ge (n+1) es (by omega)]

/-- C3: after the hierarchy pass, an entry whose id has at least one
dot gets `parent` set to the id minus its last dot segment exactly when
some entry carries that id (third conjunct: the find succeeds exactly
when such an entry exists); each child's id is appended to the found
parent's `children` in entry processing order (`hierChildrenAfter` over
the whole list, order preserved by `List.filter`); dot-free ids and
ids with no matching parent keep their fields, staying top-level. -/
theorem establishHierarchy_spec (es : List DocEntry) :
    (establishHierarchy es).length = es.length ∧
    (∀ k e, nth es k = some e →
      nth (establishHierarchy es) k =
        some { e with parent := hierParentAfter es e, children := hierChildrenAfter es es k e }) ∧
    (∀ s, (findIdxBy (fun x => x.id == s) es).isSome = true ↔
      ∃ x, x ∈ es ∧ x.id = s) := by
  obtain ⟨hlen, hnth⟩ := stateAt_closed es es.length
  have hE : establishHierarchy es = stateAt es es.length := rfl
  refine ⟨by rw [hE]; exact hlen, ?_, ?_⟩
  · intro k e h
    rw [hE, hnth k e h]
    congr 1
    have hk : k < es.length := nth_lt_length es k e h
    unfold hierEntryAt
    rw [if_pos hk, firstN_of_ge es.length es (Nat.le_refl _)]
  · intro s
    rw [findIdxBy_isSome_eq_any]
    simp [List.any_eq_true, beq_iff_eq]

/-- a minimal entry carrying only an id -/
def mkHEntry (id : String) : DocEntry :=
  { id := id
    type := EntryType.module
    «namespace» := []
    name := id
    title := none
    description := []
    signature := none
    source := { name := "test", url := "", normalizedUrl := "", version := none }
    parameters := none
    returns := none
    examples := []
    parent := none
    children := none
    scrapedAt := ""
    methods := none
    properties := none }

/-- the claim's four-entry example -/
def hierExample : List DocEntry :=
  [mkHEntry ("a"), mkHEntry ("a.b"), mkHEntry ("a.b.c"), mkHEntry ("x")]

/-- C3 witness: on ids a, a.b, a.b.c, x the pass links a.b.c to a.b,
a.b to a, leaves x top-level, and a's children are exactly the list
holding a.b -/
theorem establishHierarchy_spec_witness :
    nth (establishHierarchy hierExample) 0 =
      some { mkHEntry ("a") with children := some ["a.b"] } ∧
    nth (establishHierarchy hierExample) 1 =
      some { mkHEntry ("a.b") with parent := some ("a"), children := some ["a.b.c"] } ∧
    nth (establishHierarchy hierExample) 2 =
      some { mkHEntry ("a.b.c") with parent := some ("a.b") } ∧
    nth (establishHierarchy hierExample) 3 = some (mkHEntry ("x")) := by
  have h := (establishHierarchy_spec hierExample).2.1
  refine ⟨?_, ?_, ?_, ?_⟩
  · exact (h 0 (mkHEntry ("a")) (by decide)).trans (congrArg some (by decide))
  · exact (h 1 (mkHEntry ("a.b")) (by decide)).trans (congrArg some (by decide))
  · exact (h 2 (mkHEntry ("a.b.c")) (by decide)).trans (congrArg some (by decide))
  · exact (h 3 (mkHEntry ("x")) (by decide)).trans (congrArg some (by decide))
